import Mathlib

/-!
Verification of the TestRail templater utility (Corefracture/testrail_utils).

This file shallowly embeds the core of `src/tr_utils/utils/tr_templater.py`
(the field merge engine, candidate selection, parameter verification and the
per-case update loop) and of `src/tr_utils/interface/tr_interface.py`
(the section-descendant resolution), and proves or refutes the frozen
claims about them.

Modelling conventions:
- Python dicts are association lists with unique keys; assignment replaces
  the value at an existing key in place and appends otherwise.
- Python exceptions (KeyError, TypeError, ValueError, unbounded recursion)
  are modelled with `Option`: `none` is the raised exception; the broad
  `except` handlers of the source return whatever had been accumulated,
  which the embedding makes explicit where a claim depends on it.
- Python's unbounded recursion in the section-descendant search is modelled
  with a fuel parameter; `none` for every fuel value means the recursion
  exceeds every depth bound (in CPython: RecursionError).
- Machine strings are Lean `String`; Python `str.split(sep)` is re-implemented
  over the character list so that it is kernel-computable and raises
  (returns `none`) on an empty separator exactly as Python does.
-/

namespace TrUtils

/-- Python list-prefix test over characters: is `pat` a prefix of `cs`? -/
def charsPrefix : List Char → List Char → Bool
  | [], _ => true
  | _ :: _, [] => false
  | a :: as, b :: bs => a == b && charsPrefix as bs

/-- Leftmost, non-overlapping split of a character list on the non-empty
separator `sep`, as Python's `str.split(sep)` does; `acc` is the current
segment. Every step consumes at least one character, so the fuel argument,
called with the length of the input, never runs out; it only makes the
recursion structural (and hence kernel-computable). -/
def splitCharsAux (sep : List Char) : Nat → List Char → List Char → List (List Char)
  | _, [], acc => [acc]
  | 0, _ :: _, acc => [acc]
  | fuel + 1, c :: rest, acc =>
    if charsPrefix sep (c :: rest) ∧ sep ≠ [] then
      acc :: splitCharsAux sep fuel (rest.drop (sep.length - 1)) []
    else
      splitCharsAux sep fuel rest (acc ++ [c])

/-- Python `s.split(sep)`: `none` models the `ValueError` raised on an empty
separator, otherwise the full (unbounded) split on every occurrence. -/
def pySplit (s sep : String) : Option (List String) :=
  if sep = "" then none
  else some ((splitCharsAux sep.data s.data.length s.data []).map (fun cs => String.mk cs))

/-- Python `sub in s` for strings: `True` for the empty substring, otherwise
an occurrence test (the split has at least two parts). -/
def pyInStr (s sub : String) : Bool :=
  match pySplit s sub with
  | some splits => decide (2 ≤ splits.length)
  | none => true

/-- A TestRail step record: the two string attributes compared during merge
(`content` and `expected`), exactly as the source reads them. -/
structure Step where
  content : String
  expected : String
deriving DecidableEq

/-- A Python field value as the merge dispatch in `_update_test_cases`
distinguishes them: a steps list (`type(v) is list`), a string
(`type(v) is str`), or an opaque scalar (everything else; `intVal` covers
numbers and `noneVal` covers `None`). -/
inductive Value where
  | str : String → Value
  | steps : List Step → Value
  | intVal : Int → Value
  | noneVal : Value
deriving DecidableEq

/-- A test-case record: a Python dict from field name to value (the `id`,
`section_id` and template-identifier fields are ordinary keys of the dict). -/
abbrev Dict := List (String × Value)

/-- Python dict read `d[k]`: `none` models the KeyError on a missing key. -/
def alookup {α β : Type} [DecidableEq α] : List (α × β) → α → Option β
  | [], _ => none
  | kv :: rest, k => if kv.1 = k then some kv.2 else alookup rest k

/-- Python dict assignment `d[k] = v`: replaces the value at an existing key
in place, otherwise appends the new entry (insertion order preserved). -/
def aset {α β : Type} [DecidableEq α] : List (α × β) → α → β → List (α × β)
  | [], k, v => [(k, v)]
  | kv :: rest, k, v => if kv.1 = k then (k, v) :: rest else kv :: aset rest k v

/-- Python `d[k].append(c)` on a dict of lists: extends the list stored at an
existing key; a missing key (Python KeyError) is modelled as a no-op and is
unreachable in the one call site, which guards membership first. -/
def alistAppend {α β : Type} [DecidableEq α] : List (α × List β) → α → β → List (α × List β)
  | [], _, _ => []
  | kv :: rest, k, c => if kv.1 = k then (kv.1, kv.2 ++ [c]) :: rest else kv :: alistAppend rest k c

/-- Embeds `TestRailTemplater._handle_string_replacement` (tr_templater.py
lines 287-302): split the case data on the end marker; when the split has at
least two parts, return `""` if the template equals the first part, else the
template, the marker and the SECOND part of the split concatenated; with
fewer than two parts the unformatted literal is returned. `none` models the
ValueError of `str.split` on an empty marker. -/
def handleStringReplacement (marker templateData caseData : String) : Option String :=
  match pySplit caseData marker with
  | none => none
  | some splits =>
    match splits with
    | s0 :: s1 :: _ => if templateData = s0 then some "" else some (templateData ++ marker ++ s1)
    | _ => some "\x7b0\x7d\x7b1\x7d\x7b2\x7d"

/-- Python `marker in v` for a field value: substring test on strings, plain
(always false) membership on a steps list, and a TypeError (`none`) on
non-container scalars. -/
def valContains (v : Value) (pat : String) : Option Bool :=
  match v with
  | Value.str s => some (pyInStr s pat)
  | Value.steps _ => some false
  | _ => none

/-- Embeds the string branch of the field loop in `_update_test_cases`
(tr_templater.py lines 216-223): act only when the candidate differs from the
template and contains the marker, and only when the replacement is non-empty.
Returns the new field value and the change flag; `none` is an exception. -/
def mergeStringField (marker templateData : String) (candidate : Value) :
    Option (Value × Bool) :=
  if candidate = Value.str templateData then some (candidate, false)
  else
    match valContains candidate marker with
    | none => none
    | some false => some (candidate, false)
    | some true =>
      match candidate with
      | Value.str s =>
        match handleStringReplacement marker templateData s with
        | none => none
        | some newStr =>
          if newStr = "" then some (candidate, false) else some (Value.str newStr, true)
      | _ => some (candidate, false)

/-- Embeds `TestRailTemplater._check_for_endmarker_step` (lines 270-285):
index of the first step whose `content` contains the end marker, `-1` when
none does; `i` is the running index. -/
def checkAux (marker : String) : List Step → Nat → Int
  | [], _ => -1
  | s :: rest, i => if pyInStr s.content marker then (i : Int) else checkAux marker rest (i + 1)

/-- Index of the first candidate step whose content contains the marker. -/
def checkForEndmarkerStep (marker : String) (caseDataSteps : List Step) : Int :=
  checkAux marker caseDataSteps 0

/-- The index-aligned comparison loop of `_is_steps_list_same` (lines
262-266): every template step matches the corresponding candidate step on
both `content` and `expected`. The case where the candidate is shorter is
unreachable at the call site (guarded by the length check). -/
def stepsPrefixEq : List Step → List Step → Bool
  | [], _ => true
  | _ :: _, [] => true
  | t :: ts, c :: cs =>
    decide (c.content = t.content) && decide (c.expected = t.expected) && stepsPrefixEq ts cs

/-- Embeds `TestRailTemplater._is_steps_list_same` (lines 248-268). -/
def isStepsListSame (caseDataSteps templateDataSteps : List Step) (endMarkerIndex : Int) : Bool :=
  if caseDataSteps.length < templateDataSteps.length then false
  else if endMarkerIndex > -1 ∧ endMarkerIndex ≠ (templateDataSteps.length : Int) then false
  else stepsPrefixEq templateDataSteps caseDataSteps

/-- Embeds the steps branch of the field loop in `_update_test_cases` (lines
198-214): when the lists are not "the same", replace wholly by the template
when no marker step exists, otherwise keep the candidate steps from the
marker step onward after the template steps. -/
def mergeSteps (marker : String) (caseSteps templateSteps : List Step) : List Step × Bool :=
  let cut := checkForEndmarkerStep marker caseSteps
  if isStepsListSame caseSteps templateSteps cut then (caseSteps, false)
  else if cut = -1 then (templateSteps, true)
  else (templateSteps ++ caseSteps.drop cut.toNat, true)

/-- One field of the merge engine: the dispatch of `_update_test_cases`
(lines 198-227) on the template value's runtime type. A steps-typed template
against a non-list candidate raises (indexing into a scalar or a character),
except that a candidate which is the empty string behaves as an empty steps
list (iteration over it is empty). `none` is an exception. -/
def mergeField (marker : String) (templateVal candidateVal : Value) : Option (Value × Bool) :=
  match templateVal with
  | Value.steps templateSteps =>
    match candidateVal with
    | Value.steps caseSteps =>
      let r := mergeSteps marker caseSteps templateSteps
      some (Value.steps r.1, r.2)
    | Value.str "" =>
      if templateSteps = [] then some (candidateVal, false)
      else some (Value.steps templateSteps, true)
    | _ => none
  | Value.str t => mergeStringField marker t candidateVal
  | t => some (if candidateVal = t then (candidateVal, false) else (t, true))

/-- The per-candidate field loop of `_update_test_cases` (lines 193-227):
fold the merge over the configured field names, reading the template and
candidate values (KeyError on a missing key is `none`), assigning the new
value only when the field changed, and latching the change flag. -/
def mergeCaseFields (marker : String) (templateData : Dict) :
    List String → Dict → Bool → Option (Dict × Bool)
  | [], caseToUpdate, changeMade => some (caseToUpdate, changeMade)
  | field :: rest, caseToUpdate, changeMade =>
    match alookup templateData field with
    | none => none
    | some templateFieldData =>
      match alookup caseToUpdate field with
      | none => none
      | some caseFieldData =>
        match mergeField marker templateFieldData caseFieldData with
        | none => none
        | some (newVal, changed) =>
          mergeCaseFields marker templateData rest
            (if changed then aset caseToUpdate field newVal else caseToUpdate)
            (changeMade || changed)

/-- Outcome of one `update_case` remote call, as `_update_test_case`
(lines 238-246) observes it: either the call raises, or it returns a result
dict whose error indicator is the presence of an `error` key. -/
inductive UpdateOutcome where
  | raise : UpdateOutcome
  | result : Bool → UpdateOutcome
deriving DecidableEq

/-- Observable state of the update loop in `_update_test_cases` (lines
179-236): the ids appended to `cases_updated`, the case records passed to
`update_case` in call order, the in-memory merged candidate records, and
whether the broad `except` of the loop fired (aborting the remaining
candidates). -/
structure UpdateRunResult where
  casesUpdated : List Value
  persistCalls : List Dict
  mergedCases : List Dict
  aborted : Bool
deriving DecidableEq

/-- The empty accumulator at loop entry (`cases_updated = []`). -/
def initUpdateRun : UpdateRunResult :=
  { casesUpdated := [], persistCalls := [], mergedCases := [], aborted := false }

/-- The flattened template/candidate iteration of `_update_test_cases`
(lines 190-231): for each `(template, candidate)` pair in order, merge every
configured field, and, when not a dry run and a change was made, read the
candidate id, call `update_case` (the oracle), and record the id when the
result carries no error indicator. Any exception (missing key, type error,
or a raising remote call) stops the loop and returns what was accumulated,
as the enclosing `except` does. -/
def runPairs (marker : String) (fields : List String) (oracle : Dict → UpdateOutcome)
    (dryRun : Bool) : List (Dict × Dict) → UpdateRunResult → UpdateRunResult
  | [], acc => acc
  | (templateData, caseToUpdate) :: rest, acc =>
    match mergeCaseFields marker templateData fields caseToUpdate false with
    | none => { acc with aborted := true }
    | some (newCase, changeMade) =>
      let acc1 := { acc with mergedCases := acc.mergedCases ++ [newCase] }
      if dryRun = false ∧ changeMade = true then
        match alookup newCase "id" with
        | none => { acc1 with aborted := true }
        | some idVal =>
          let acc2 := { acc1 with persistCalls := acc1.persistCalls ++ [newCase] }
          match oracle newCase with
          | UpdateOutcome.raise => { acc2 with aborted := true }
          | UpdateOutcome.result hasError =>
            runPairs marker fields oracle dryRun rest
              (if hasError then acc2
               else { acc2 with casesUpdated := acc2.casesUpdated ++ [idVal] })
      else
        runPairs marker fields oracle dryRun rest acc1

/-- The pair sequence `_update_test_cases` iterates: for every entry of the
template dict in order, when its template id is a key of `cases_to_update`,
every candidate in that list (lines 190-192). -/
def buildPairs (templates : List (Value × Dict)) (casesToUpdate : List (Value × List Dict)) :
    List (Dict × Dict) :=
  templates.flatMap (fun t =>
    match alookup casesToUpdate t.1 with
    | some l => l.map (fun c => (t.2, c))
    | none => [])

/-- Embeds `TestRailTemplater._update_test_cases` (lines 179-236) with the
remote `update_case` collaborator abstracted as `oracle`. -/
def updateTestCases (marker : String) (fields : List String) (oracle : Dict → UpdateOutcome)
    (templates : List (Value × Dict)) (casesToUpdate : List (Value × List Dict))
    (dryRun : Bool) : UpdateRunResult :=
  runPairs marker fields oracle dryRun (buildPairs templates casesToUpdate) initUpdateRun

/-- The post-merge in-memory record for one (template, candidate) pair; the
per-field diff computation producing it runs regardless of dry-run mode. -/
def mergedOf (marker : String) (fields : List String) (p : Dict × Dict) : Option Dict :=
  (mergeCaseFields marker p.1 fields p.2 false).map Prod.fst

/-- The record a non-dry run passes to `update_case` for one pair: present
exactly when the merge succeeded and changed at least one configured field. -/
def persistOf (marker : String) (fields : List String) (p : Dict × Dict) : Option Dict :=
  match mergeCaseFields marker p.1 fields p.2 false with
  | some (c, true) => some c
  | _ => none

/-- The id a non-dry run appends to `cases_updated` for one pair: present
exactly when the merge changed the record and the persist result carried no
error indicator. -/
def updatedIdOf (marker : String) (fields : List String) (oracle : Dict → UpdateOutcome)
    (p : Dict × Dict) : Option Value :=
  match mergeCaseFields marker p.1 fields p.2 false with
  | some (c, true) =>
    match oracle c with
    | UpdateOutcome.result false => alookup c "id"
    | _ => none
  | _ => none

/-- The dict initialisation of `_get_cases_to_update` (lines 356-357): every
template id is given an empty candidate list. -/
def ctuInit (templateIds : List Value) : List (Value × List Dict) :=
  templateIds.foldl (fun d tid => aset d tid []) []

/-- The selection loop of `_get_cases_to_update` (lines 360-362) with
Python's short-circuit evaluation: read the case's template-identifier field
(KeyError stops the loop, returning the dict built so far), and when its
value is among the template ids, read the case id and append the case unless
that id is a template case id. -/
def ctuLoop (templateIds : List Value) (templateCaseIds : List Value) (fieldId : String) :
    List Dict → List (Value × List Dict) → List (Value × List Dict)
  | [], d => d
  | c :: rest, d =>
    match alookup c fieldId with
    | none => d
    | some tv =>
      if tv ∈ templateIds then
        match alookup c "id" with
        | none => d
        | some idVal =>
          if idVal ∈ templateCaseIds then ctuLoop templateIds templateCaseIds fieldId rest d
          else ctuLoop templateIds templateCaseIds fieldId rest (alistAppend d tv c)
      else ctuLoop templateIds templateCaseIds fieldId rest d

/-- Embeds `TestRailTemplater._get_cases_to_update` (lines 345-370). -/
def getCasesToUpdate (templateIds : List Value) (templateCaseIds : List Value)
    (testCaseData : List Dict) (fieldId : String) : List (Value × List Dict) :=
  ctuLoop templateIds templateCaseIds fieldId testCaseData (ctuInit templateIds)

/-- The candidate-selection predicate the claims describe: the case's value
in the template-identifier field equals the template id and its own id is
not a template case id. -/
def caseSelected (templateCaseIds : List Value) (fieldId : String) (tid : Value) (c : Dict) :
    Bool :=
  decide (alookup c fieldId = some tid) &&
    match alookup c "id" with
    | some idVal => decide (idVal ∉ templateCaseIds)
    | none => false

/-- The attributes of a `TestRailTemplater` instance that `_verify_params`
reads; `none` is Python `None`. The constructor (lines 101-125) initialises
the two scope lists to `[]` and only then fills them from the CSV strings,
so after a successful construction they are never `None`. -/
structure TemplaterState where
  trProjId : Option Int
  templateIdFieldName : Option String
  fieldsToTemplate : Option (List String)
  templateSrcSectionIds : Option (List Int)
  templateSrcCaseIds : Option (List Int)
deriving DecidableEq

/-- The constructor (lines 101-125) for a run in which neither a section-id
scope nor a case-id scope was supplied (`section_ids_csv = None` and
`case_ids_csv = None`): both scope attributes keep their initial `[]`, and
the fields-to-template list is the comma split of the CSV string. -/
def mkTemplaterStateNoScope (projId : Int) (templateIdField : String)
    (templateFieldsCsv : String) : TemplaterState :=
  { trProjId := some projId
    templateIdFieldName := some templateIdField
    fieldsToTemplate := pySplit templateFieldsCsv ","
    templateSrcSectionIds := some []
    templateSrcCaseIds := some [] }

/-- Embeds `TestRailTemplater._verify_params` (lines 372-396). -/
def verifyParams (s : TemplaterState) : Bool :=
  if s.trProjId = none then false
  else if s.templateSrcCaseIds = none ∧ s.templateSrcSectionIds = none then false
  else if s.templateIdFieldName = none then false
  else if s.fieldsToTemplate = none ∨ (s.fieldsToTemplate.getD []).length = 0 then false
  else true

/-- The remote operations `execute_templater` can invoke before any case is
updated. -/
inductive NetCall where
  | suitesGetDefaultSuite : NetCall
  | retrieveTestcaseData : NetCall
  | retrieveSectionsData : NetCall
deriving DecidableEq

/-- Embeds the opening of `execute_templater` (lines 134-150): when no suite
id was supplied the default-suite lookup runs FIRST, then `_verify_params`
decides whether the run aborts (return code 1); only a passing verification
reaches the case fetch and the optional section fetch. Returns the remote
calls issued in order, and `some 1` when the run aborted in this prelude. -/
def executeTemplaterPrelude (suiteId : Option Int) (s : TemplaterState)
    (getAllChildSections : Bool) : List NetCall × Option Nat :=
  let suiteCalls := match suiteId with
    | none => [NetCall.suitesGetDefaultSuite]
    | some _ => []
  if verifyParams s = false then (suiteCalls, some 1)
  else
    (suiteCalls ++ [NetCall.retrieveTestcaseData] ++
      (if getAllChildSections = true ∧ (s.templateSrcSectionIds.getD []).length > 0 then
        [NetCall.retrieveSectionsData]
      else []), none)

/-- A TestRail section as `_secs_get_child_sections` reads it: an `id` and a
`parent_id` (Python `None` for roots). -/
structure PySection where
  id : Int
  parentId : Option Int
deriving DecidableEq

/-- The lookup dict built in `_secs_get_child_sections` (tr_interface.py
lines 161-165): section id mapped to parent id, with Python dict semantics
(a repeated id overwrites its value in place). -/
def buildSectionLookup (sections : List PySection) : List (Int × Option Int) :=
  sections.foldl (fun d s => aset d s.id s.parentId) []

/-- Embeds `_secs_get_all_descendants_of_section` (tr_interface.py lines
121-135): scan the lookup items; every entry whose parent id equals the
searched section id contributes itself followed by its own recursively
computed descendants. The fourth argument is the remaining portion of the
scan; the recursion of the source is unbounded, so a fuel parameter is
threaded through and `none` models a computation exceeding every bound. -/
def secsDescAux : Nat → Int → List (Int × Option Int) → List (Int × Option Int) →
    Option (List Int)
  | 0, _, _, _ => none
  | _ + 1, _, _, [] => some []
  | fuel + 1, sectionId, lookups, (secId, prntId) :: rest =>
    if prntId = some sectionId then
      match secsDescAux fuel secId lookups lookups with
      | none => none
      | some sub =>
        match secsDescAux fuel sectionId lookups rest with
        | none => none
        | some tail => some (secId :: (sub ++ tail))
    else secsDescAux fuel sectionId lookups rest

/-- All descendants of `sectionId` in the lookup table, fuel-bounded. -/
def secsGetAllDescendantsOfSection (fuel : Nat) (sectionId : Int)
    (lookups : List (Int × Option Int)) : Option (List Int) :=
  secsDescAux fuel sectionId lookups lookups

/-- Embeds `_secs_get_child_sections` (tr_interface.py lines 153-173). -/
def secsGetChildSections (fuel : Nat) (sectionId : Int) (sections : List PySection) :
    Option (List Int) :=
  secsGetAllDescendantsOfSection fuel sectionId (buildSectionLookup sections)

/-- Embeds `get_child_sections` (tr_interface.py lines 101-119): every
requested root id followed by its descendant closure, in order. -/
def getChildSections (fuel : Nat) : List Int → List PySection → Option (List Int)
  | [], _ => some []
  | r :: rest, sections =>
    match secsGetChildSections fuel r sections with
    | none => none
    | some childSecs =>
      match getChildSections fuel rest sections with
      | none => none
      | some tail => some (r :: (childSecs ++ tail))

/-! ### Helper lemmas about the dict model -/

theorem alookup_aset {α β : Type} [DecidableEq α] (d : List (α × β)) (k x : α) (v : β) :
    alookup (aset d k v) x = if k = x then some v else alookup d x := by
  induction d with
  | nil => simp only [aset, alookup]
  | cons kv rest ih =>
    simp only [aset]
    by_cases h1 : kv.1 = k
    · rw [if_pos h1]
      simp only [alookup]
      by_cases h2 : k = x
      · simp [h2]
      · have h3 : ¬ kv.1 = x := fun hx => h2 (h1.symm.trans hx)
        simp [h2, h3]
    · rw [if_neg h1]
      simp only [alookup, ih]
      by_cases h2 : kv.1 = x
      · have h3 : ¬ k = x := fun hx => h1 (h2.trans hx.symm)
        simp [h2, h3]
      · simp [h2]

theorem alookup_alistAppend {α β : Type} [DecidableEq α] (d : List (α × List β)) (k x : α)
    (c : β) :
    alookup (alistAppend d k c) x =
      if k = x then (alookup d x).map (fun l => l ++ [c]) else alookup d x := by
  induction d with
  | nil =>
    by_cases h : k = x <;> simp [alistAppend, alookup, h]
  | cons kv rest ih =>
    simp only [alistAppend]
    by_cases h1 : kv.1 = k
    · rw [if_pos h1]
      simp only [alookup]
      by_cases h2 : k = x
      · have h3 : kv.1 = x := h1.trans h2
        simp [h2, h3]
      · have h3 : ¬ kv.1 = x := fun hx => h2 (h1.symm.trans hx)
        simp [h2, h3]
    · rw [if_neg h1]
      simp only [alookup, ih]
      by_cases h2 : kv.1 = x
      · have h3 : ¬ k = x := fun hx => h1 (h2.trans hx.symm)
        simp [h2, h3]
      · simp [h2]

theorem string_append_marker_ne_empty (m : String) (hm : m ≠ "") (t s1 : String) :
    t ++ m ++ s1 ≠ "" := by
  intro h
  apply hm
  have hd := congrArg String.data h
  simp only [String.data_append] at hd
  rcases List.append_eq_nil.mp hd with ⟨hd1, -⟩
  rcases List.append_eq_nil.mp hd1 with ⟨-, hmd⟩
  cases m
  exact congrArg String.mk hmd

/-! ### C1 — string field merge -/

/-- C1 (counterexample): the claim predicts that everything after the FIRST
occurrence of the marker is preserved verbatim, so with template `"X"` and
candidate `"a!ENDTEMPLATE!b!ENDTEMPLATE!c"` the merged value would be
`"X" ++ "!ENDTEMPLATE!" ++ "b!ENDTEMPLATE!c"`; the code instead returns
`"X!ENDTEMPLATE!b"`, discarding the second marker occurrence and the text
after it, because `_handle_string_replacement` splits on every occurrence and
keeps only `splits[1]`. -/
theorem c1_string_merge_counterexample :
    mergeField "!ENDTEMPLATE!" (Value.str "X") (Value.str "a!ENDTEMPLATE!b!ENDTEMPLATE!c") =
      some (Value.str "X!ENDTEMPLATE!b", true) ∧
    ("X!ENDTEMPLATE!b" : String) ≠ "X" ++ "!ENDTEMPLATE!" ++ "b!ENDTEMPLATE!c" :=
  ⟨by decide, by decide⟩

/-- C1 (amended): for every non-empty marker M, template string T and
candidate string C whose full split on M is `s0 :: s1 :: rest` (so C contains
M, s0 is the text before the first occurrence and s1 the text strictly
between the first and the second occurrence, or everything after the first
occurrence when M occurs only once), with C ≠ T and T ≠ s0, the merged value
is `T ++ M ++ s1` — the text from the second marker occurrence onward is
discarded — and changed = true. -/
theorem c1_string_merge_amended (marker templateData caseData s0 s1 : String)
    (rest : List String)
    (hsplit : pySplit caseData marker = some (s0 :: s1 :: rest))
    (hne : caseData ≠ templateData)
    (hpre : templateData ≠ s0) :
    mergeField marker (Value.str templateData) (Value.str caseData) =
      some (Value.str (templateData ++ marker ++ s1), true) := by
  have hm : marker ≠ "" := by
    intro h
    rw [h] at hsplit
    simp [pySplit] at hsplit
  have hne' : Value.str caseData ≠ Value.str templateData := by
    simp [hne]
  have hempty := string_append_marker_ne_empty marker hm templateData s1
  simp only [mergeField, mergeStringField, if_neg hne', valContains, pyInStr,
    handleStringReplacement, hsplit]
  simp [hpre, hempty]

/-- C1 (witness): concrete instance of the amended theorem, the spec's own
single-marker example. -/
theorem c1_string_merge_witness :
    mergeField "!ENDTEMPLATE!" (Value.str "A2") (Value.str "A !ENDTEMPLATE! B") =
      some (Value.str ("A2" ++ "!ENDTEMPLATE!" ++ " B"), true) :=
  c1_string_merge_amended "!ENDTEMPLATE!" "A2" "A !ENDTEMPLATE! B" "A " " B" []
    (by decide) (by decide) (by decide)

/-! ### C7 — steps merge with a short candidate -/

/-- C7 (counterexample): the claim says a candidate strictly shorter than the
template is always fully replaced by the template; but when a short candidate
contains a marker step, the code keeps it: template `[a, b]` against the
one-step candidate `[x!ENDTEMPLATE!]` yields `[a, b, x!ENDTEMPLATE!]`, not
the template `[a, b]`. -/
theorem c7_short_candidate_counterexample :
    mergeField "!ENDTEMPLATE!"
        (Value.steps [⟨"a", ""⟩, ⟨"b", ""⟩])
        (Value.steps [⟨"x !ENDTEMPLATE!", ""⟩]) =
      some (Value.steps [⟨"a", ""⟩, ⟨"b", ""⟩, ⟨"x !ENDTEMPLATE!", ""⟩], true) ∧
    ([⟨"a", ""⟩, ⟨"b", ""⟩, ⟨"x !ENDTEMPLATE!", ""⟩] : List Step) ≠
      [⟨"a", ""⟩, ⟨"b", ""⟩] :=
  ⟨by decide, by decide⟩

/-- C7 (amended): a candidate steps sequence strictly shorter than the
template is treated as not already templated and changed = true; it is fully
replaced by the template exactly when no candidate step contains the marker
(cut = -1); when a candidate step does contain the marker at index cut, the
result is the template followed by the candidate steps from cut onward. -/
theorem c7_short_candidate_amended (marker : String) (templateSteps caseSteps : List Step)
    (hshort : caseSteps.length < templateSteps.length) :
    mergeField marker (Value.steps templateSteps) (Value.steps caseSteps) =
      some (Value.steps
        (if checkForEndmarkerStep marker caseSteps = -1 then templateSteps
         else templateSteps ++ caseSteps.drop (checkForEndmarkerStep marker caseSteps).toNat),
        true) := by
  have hsame : isStepsListSame caseSteps templateSteps
      (checkForEndmarkerStep marker caseSteps) = false := by
    simp [isStepsListSame, hshort]
  simp only [mergeField, mergeSteps]
  rw [if_neg (by simp [hsame])]
  by_cases hc : checkForEndmarkerStep marker caseSteps = -1 <;> simp [hc]

/-- C7 (witness): a short candidate with no marker step is fully replaced. -/
theorem c7_short_candidate_witness :
    mergeField "!ENDTEMPLATE!" (Value.steps [⟨"a", ""⟩, ⟨"b", ""⟩])
        (Value.steps [⟨"c", ""⟩]) =
      some (Value.steps [⟨"a", ""⟩, ⟨"b", ""⟩], true) :=
  (c7_short_candidate_amended "!ENDTEMPLATE!" [⟨"a", ""⟩, ⟨"b", ""⟩] [⟨"c", ""⟩]
    (by decide)).trans (by decide)

/-! ### C3 — cyclic section data -/

/-- On the two-section cycle (section 1's parent is 2 and section 2's parent
is 1), the recursive descendant search never completes at any depth bound:
searching from 1 requires searching from 2 first and conversely. -/
theorem secsDescAux_cycle_none (fuel : Nat) :
    secsDescAux fuel 1 [(1, some 2), (2, some 1)] [(1, some 2), (2, some 1)] = none ∧
    secsDescAux fuel 2 [(1, some 2), (2, some 1)] [(1, some 2), (2, some 1)] = none ∧
    secsDescAux fuel 1 [(1, some 2), (2, some 1)] [(2, some 1)] = none := by
  induction fuel with
  | zero => exact ⟨rfl, rfl, rfl⟩
  | succ n ih =>
    refine ⟨?_, ?_, ?_⟩
    · simpa [secsDescAux] using ih.2.2
    · simp [secsDescAux, ih.1]
    · simp [secsDescAux, ih.2.1]

/-- C3: the claim says that on a parent-pointer cycle reachable from a
requested root the descendant resolution bounds its recursion and fails with
a MalformedHierarchy error. The code has no visited set, no depth limit and
no MalformedHierarchy error anywhere: on the cyclic input
`[{id 1, parent 2}, {id 2, parent 1}]` with root 1 the recursion of
`_secs_get_all_descendants_of_section` exceeds every depth bound (in CPython
this raises RecursionError, which the broad `except` in
`_secs_get_child_sections` swallows, silently returning no descendants). -/
theorem c3_cycle_unbounded_recursion (fuel : Nat) :
    getChildSections fuel [1] [⟨1, some 2⟩, ⟨2, some 1⟩] = none := by
  have hb : buildSectionLookup [⟨1, some 2⟩, ⟨2, some 1⟩] = [(1, some 2), (2, some 1)] := by
    decide
  have h1 : secsGetChildSections fuel 1 [⟨1, some 2⟩, ⟨2, some 1⟩] = none := by
    simp only [secsGetChildSections, secsGetAllDescendantsOfSection, hb]
    exact (secsDescAux_cycle_none fuel).1
  simp [getChildSections, h1]

/-! ### C5 — configuration validation -/

/-- C5: the claim says a run with neither a section-id scope nor a case-id
scope aborts with a configuration error before any network call, including
the default-suite lookup. The code does neither: (1) with both scope CSVs
absent the constructor leaves both scope attributes as `[]` (not None), so
`_verify_params` returns True and the run proceeds to the remote case fetch
instead of aborting; (2) even in a run that does fail verification (here:
missing template-id field name), `execute_templater` performs the
default-suite lookup BEFORE calling `_verify_params`. -/
theorem c5_no_scope_not_rejected :
    (verifyParams (mkTemplaterStateNoScope 1 "custom_template_id" "title") = true ∧
      executeTemplaterPrelude none (mkTemplaterStateNoScope 1 "custom_template_id" "title")
          true =
        ([NetCall.suitesGetDefaultSuite, NetCall.retrieveTestcaseData], none)) ∧
    executeTemplaterPrelude none
        { trProjId := some 1, templateIdFieldName := none, fieldsToTemplate := some ["title"],
          templateSrcSectionIds := some [], templateSrcCaseIds := some [] } true =
      ([NetCall.suitesGetDefaultSuite], some 1) :=
  ⟨⟨by decide, by decide⟩, by decide⟩

/-! ### C2 — steps field merge -/

theorem checkAux_ge (marker : String) (l : List Step) : ∀ i : Nat, -1 ≤ checkAux marker l i := by
  induction l with
  | nil => intro i; simp [checkAux]
  | cons s rest ih =>
    intro i
    simp only [checkAux]
    split
    · omega
    · exact ih (i + 1)

theorem checkForEndmarkerStep_ge (marker : String) (l : List Step) :
    -1 ≤ checkForEndmarkerStep marker l :=
  checkAux_ge marker l 0

theorem stepsPrefixEq_iff (ts : List Step) : ∀ cs : List Step, ts.length ≤ cs.length →
    (stepsPrefixEq ts cs = true ↔ cs.take ts.length = ts) := by
  induction ts with
  | nil => intro cs _; simp [stepsPrefixEq]
  | cons t ts ih =>
    intro cs hlen
    cases cs with
    | nil => simp at hlen
    | cons c cs =>
      simp only [List.length_cons] at hlen
      simp only [stepsPrefixEq, List.length_cons, List.take_succ_cons, List.cons.injEq,
        Bool.and_eq_true, decide_eq_true_eq]
      constructor
      · rintro ⟨⟨hc, he⟩, hrec⟩
        have hct : c = t := by
          obtain ⟨c1, c2⟩ := c
          obtain ⟨t1, t2⟩ := t
          simp only [Step.mk.injEq]
          exact ⟨hc, he⟩
        exact ⟨hct, (ih cs (by omega)).mp hrec⟩
      · rintro ⟨hct, hrec⟩
        exact ⟨⟨by rw [hct], by rw [hct]⟩, (ih cs (by omega)).mpr hrec⟩

/-- The equality check of `_is_steps_list_same` holds exactly under the three
conditions the spec names: candidate at least as long as the template, the
marker cut at -1 or at the template length, and index-aligned equality of the
first `len(template)` steps. -/
theorem isStepsListSame_iff (marker : String) (ts cs : List Step) :
    isStepsListSame cs ts (checkForEndmarkerStep marker cs) = true ↔
      (ts.length ≤ cs.length ∧
        (checkForEndmarkerStep marker cs = -1 ∨
          checkForEndmarkerStep marker cs = (ts.length : Int)) ∧
        cs.take ts.length = ts) := by
  have hcut := checkForEndmarkerStep_ge marker cs
  unfold isStepsListSame
  by_cases h1 : cs.length < ts.length
  · rw [if_pos h1]
    simp only [Bool.false_eq_true, false_iff]
    intro h
    have := h.1
    omega
  · rw [if_neg h1]
    by_cases h2 : checkForEndmarkerStep marker cs > -1 ∧
        checkForEndmarkerStep marker cs ≠ (ts.length : Int)
    · rw [if_pos h2]
      simp only [Bool.false_eq_true, false_iff]
      intro h
      rcases h.2.1 with h3 | h3
      · omega
      · exact h2.2 h3
    · rw [if_neg h2]
      push_neg at h2
      have hor : checkForEndmarkerStep marker cs = -1 ∨
          checkForEndmarkerStep marker cs = (ts.length : Int) := by
        by_cases hgt : checkForEndmarkerStep marker cs > -1
        · exact Or.inr (h2 hgt)
        · left; omega
      rw [stepsPrefixEq_iff ts cs (le_of_not_lt h1)]
      constructor
      · intro h
        exact ⟨le_of_not_lt h1, hor, h⟩
      · intro h
        exact h.2.2

/-- C2: a steps-field merge leaves the candidate unchanged exactly when the
candidate is at least as long as the template, the index of the first marker
step is -1 or the template length, and the first `len(template)` candidate
steps equal the template steps (both attributes); otherwise, when the marker
cut is non-negative, the merged value is the template followed by the
candidate steps from the cut onward, with changed = true. -/
theorem c2_steps_merge (marker : String) (templateSteps caseSteps : List Step) :
    (mergeField marker (Value.steps templateSteps) (Value.steps caseSteps) =
        some (Value.steps caseSteps, false) ↔
      (templateSteps.length ≤ caseSteps.length ∧
        (checkForEndmarkerStep marker caseSteps = -1 ∨
          checkForEndmarkerStep marker caseSteps = (templateSteps.length : Int)) ∧
        caseSteps.take templateSteps.length = templateSteps))
    ∧ (mergeField marker (Value.steps templateSteps) (Value.steps caseSteps) ≠
        some (Value.steps caseSteps, false) →
       0 ≤ checkForEndmarkerStep marker caseSteps →
       mergeField marker (Value.steps templateSteps) (Value.steps caseSteps) =
         some (Value.steps (templateSteps ++
           caseSteps.drop (checkForEndmarkerStep marker caseSteps).toNat), true)) := by
  constructor
  · constructor
    · intro h
      by_cases hs : isStepsListSame caseSteps templateSteps
          (checkForEndmarkerStep marker caseSteps) = true
      · exact (isStepsListSame_iff marker templateSteps caseSteps).mp hs
      · exfalso
        simp only [mergeField, mergeSteps] at h
        rw [if_neg hs] at h
        by_cases hc : checkForEndmarkerStep marker caseSteps = -1 <;> simp [hc] at h
    · intro hcond
      have hs := (isStepsListSame_iff marker templateSteps caseSteps).mpr hcond
      simp [mergeField, mergeSteps, hs]
  · intro hne hge
    by_cases hs : isStepsListSame caseSteps templateSteps
        (checkForEndmarkerStep marker caseSteps) = true
    · exact absurd (by simp [mergeField, mergeSteps, hs]) hne
    · have hc : ¬ (checkForEndmarkerStep marker caseSteps = -1) := by omega
      simp [mergeField, mergeSteps, hs, hc]

/-- C2 (witness): the spec's own example — the candidate's second step
diverges from the template's, a marker step sits at index 2 = len(template),
so the merge keeps the marker step and the manual step after it while
refreshing the two templated steps. -/
theorem c2_steps_merge_witness :
    mergeField "!ENDTEMPLATE!"
        (Value.steps [⟨"s1", "e1"⟩, ⟨"s2", "e2"⟩])
        (Value.steps [⟨"s1", "e1"⟩, ⟨"s2x", "e2"⟩, ⟨"m !ENDTEMPLATE!", ""⟩, ⟨"s4", "e4"⟩]) =
      some (Value.steps [⟨"s1", "e1"⟩, ⟨"s2", "e2"⟩, ⟨"m !ENDTEMPLATE!", ""⟩, ⟨"s4", "e4"⟩],
        true) :=
  ((c2_steps_merge "!ENDTEMPLATE!" [⟨"s1", "e1"⟩, ⟨"s2", "e2"⟩]
      [⟨"s1", "e1"⟩, ⟨"s2x", "e2"⟩, ⟨"m !ENDTEMPLATE!", ""⟩, ⟨"s4", "e4"⟩]).2
    (by decide) (by decide)).trans (by decide)

/-! ### C10 — frame property of the per-case field loop -/

/-- C10: the field loop of `_update_test_cases` assigns only to configured
fields: for every successful per-case merge, every field name outside the
configured fields-to-template list (in particular the case identifier and
the template-identifier field, when they are not configured) reads the same
value in the merged in-memory record as in the fetched record. -/
theorem c10_merge_frame (marker : String) (templateData : Dict) (g : String) :
    ∀ (fields : List String) (caseData : Dict) (b : Bool) (newCase : Dict) (changed : Bool),
      g ∉ fields →
      mergeCaseFields marker templateData fields caseData b = some (newCase, changed) →
      alookup newCase g = alookup caseData g := by
  intro fields
  induction fields with
  | nil =>
    intro caseData b newCase changed _ h
    simp only [mergeCaseFields, Option.some.injEq, Prod.mk.injEq] at h
    rw [← h.1]
  | cons f rest ih =>
    intro caseData b newCase changed hg h
    have hgf : g ≠ f := fun he => hg (he ▸ List.mem_cons_self f rest)
    have hgr : g ∉ rest := fun he => hg (List.mem_cons_of_mem f he)
    simp only [mergeCaseFields] at h
    cases htv : alookup templateData f with
    | none =>
      simp only [htv] at h
      exact Option.noConfusion h
    | some tv =>
      simp only [htv] at h
      cases hcv : alookup caseData f with
      | none =>
        simp only [hcv] at h
        exact Option.noConfusion h
      | some cv =>
        simp only [hcv] at h
        cases hmf : mergeField marker tv cv with
        | none =>
          simp only [hmf] at h
          exact Option.noConfusion h
        | some p =>
          obtain ⟨nv, ch⟩ := p
          simp only [hmf] at h
          have hrec := ih _ _ _ _ hgr h
          rw [hrec]
          by_cases hch : ch = true
          · rw [if_pos hch, alookup_aset, if_neg (fun he => hgf he.symm)]
          · rw [if_neg hch]

/-- C10 (witness): a merge that rewrites the configured `title` field leaves
the `id` field of the in-memory record untouched. -/
theorem c10_merge_frame_witness :
    alookup [("id", Value.intVal 5), ("title", Value.str "new!ENDTEMPLATE!tail")] "id" =
      alookup [("id", Value.intVal 5), ("title", Value.str "old!ENDTEMPLATE!tail")] "id" :=
  c10_merge_frame "!ENDTEMPLATE!" [("title", Value.str "new")] "id" ["title"]
    [("id", Value.intVal 5), ("title", Value.str "old!ENDTEMPLATE!tail")] false
    [("id", Value.intVal 5), ("title", Value.str "new!ENDTEMPLATE!tail")] true
    (by decide) (by decide)

/-! ### C4 — candidate selection -/

theorem alookup_ctuInit_aux (tids : List Value) :
    ∀ (d : List (Value × List Dict)) (tid : Value),
      alookup (tids.foldl (fun d t => aset d t ([] : List Dict)) d) tid =
        if tid ∈ tids then some [] else alookup d tid := by
  induction tids with
  | nil => intro d tid; simp
  | cons t ts ih =>
    intro d tid
    simp only [List.foldl_cons, ih, alookup_aset]
    by_cases h1 : tid ∈ ts
    · simp [h1]
    · by_cases h2 : t = tid
      · simp [h1, h2]
      · have h3 : ¬ tid ∈ t :: ts := by
          simp only [List.mem_cons]
          push_neg
          exact ⟨fun he => h2 he.symm, h1⟩
        simp [h1, h2, h3]

theorem alookup_ctuInit (templateIds : List Value) (tid : Value) :
    alookup (ctuInit templateIds) tid = if tid ∈ templateIds then some [] else none := by
  rw [ctuInit, alookup_ctuInit_aux]
  simp [alookup]

theorem ctuLoop_char (templateIds templateCaseIds : List Value) (fieldId : String) :
    ∀ (cases : List Dict) (d : List (Value × List Dict)) (tid : Value),
      tid ∈ templateIds →
      (∀ c ∈ cases, (alookup c fieldId).isSome) →
      (∀ c ∈ cases, (alookup c "id").isSome) →
      alookup (ctuLoop templateIds templateCaseIds fieldId cases d) tid =
        (alookup d tid).map
          (fun l => l ++ cases.filter (caseSelected templateCaseIds fieldId tid)) := by
  intro cases
  induction cases with
  | nil =>
    intro d tid _ _ _
    cases h : alookup d tid <;> simp [ctuLoop, h]
  | cons c rest ih =>
    intro d tid htid hf hi
    have hfr : ∀ x ∈ rest, (alookup x fieldId).isSome := fun x hx => hf x (List.mem_cons_of_mem c hx)
    have hir : ∀ x ∈ rest, (alookup x "id").isSome := fun x hx => hi x (List.mem_cons_of_mem c hx)
    obtain ⟨tv, htv⟩ := Option.isSome_iff_exists.mp (hf c (List.mem_cons_self c rest))
    simp only [ctuLoop, htv]
    by_cases hmem : tv ∈ templateIds
    · rw [if_pos hmem]
      obtain ⟨idv, hidv⟩ := Option.isSome_iff_exists.mp (hi c (List.mem_cons_self c rest))
      simp only [hidv]
      by_cases hidmem : idv ∈ templateCaseIds
      · rw [if_pos hidmem, ih d tid htid hfr hir]
        have hsel : caseSelected templateCaseIds fieldId tid c = false := by
          simp [caseSelected, hidv, hidmem]
        simp [List.filter_cons, hsel]
      · rw [if_neg hidmem, ih (alistAppend d tv c) tid htid hfr hir, alookup_alistAppend]
        by_cases htv2 : tv = tid
        · have hsel : caseSelected templateCaseIds fieldId tid c = true := by
            simp [caseSelected, htv, htv2, hidv, hidmem]
          rw [if_pos htv2]
          cases alookup d tid <;> simp [List.filter_cons, hsel]
        · have hsel : caseSelected templateCaseIds fieldId tid c = false := by
            simp only [caseSelected, htv, Bool.and_eq_false_iff]
            left
            simpa using htv2
          rw [if_neg htv2]
          cases alookup d tid <;> simp [List.filter_cons, hsel]
    · rw [if_neg hmem, ih d tid htid hfr hir]
      have hsel : caseSelected templateCaseIds fieldId tid c = false := by
        have htv2 : ¬ tv = tid := fun he => hmem (he ▸ htid)
        simp only [caseSelected, htv, Bool.and_eq_false_iff]
        left
        simpa using htv2
      simp [List.filter_cons, hsel]

theorem ctuLoop_none (templateIds templateCaseIds : List Value) (fieldId : String) :
    ∀ (cases : List Dict) (d : List (Value × List Dict)) (tid : Value),
      alookup d tid = none →
      alookup (ctuLoop templateIds templateCaseIds fieldId cases d) tid = none := by
  intro cases
  induction cases with
  | nil => intro d tid hd; simpa [ctuLoop] using hd
  | cons c rest ih =>
    intro d tid hd
    cases htv : alookup c fieldId with
    | none =>
      simp only [ctuLoop, htv]
      exact hd
    | some tv =>
      cases hidv : alookup c "id" with
      | none =>
        simp only [ctuLoop, htv, hidv]
        by_cases hmem : tv ∈ templateIds
        · rw [if_pos hmem]; exact hd
        · rw [if_neg hmem]; exact ih d tid hd
      | some idv =>
        simp only [ctuLoop, htv, hidv]
        by_cases hmem : tv ∈ templateIds
        · rw [if_pos hmem]
          by_cases hidmem : idv ∈ templateCaseIds
          · rw [if_pos hidmem]; exact ih d tid hd
          · rw [if_neg hidmem]
            apply ih
            rw [alookup_alistAppend]
            by_cases htv2 : tv = tid <;> simp [htv2, hd]
        · rw [if_neg hmem]; exact ih d tid hd

/-- C4: the result of `_get_cases_to_update` maps every template id in the
input list to exactly the cases whose template-identifier field value equals
that id and whose own case id is not a template case id (in input order, so
in particular the key is always present, possibly with an empty list); and
no case stored under any key has its id among the template case ids. -/
theorem c4_candidate_selection (templateIds templateCaseIds : List Value)
    (testCaseData : List Dict) (fieldId : String)
    (hf : ∀ c ∈ testCaseData, (alookup c fieldId).isSome)
    (hi : ∀ c ∈ testCaseData, (alookup c "id").isSome) :
    (∀ tid ∈ templateIds,
      alookup (getCasesToUpdate templateIds templateCaseIds testCaseData fieldId) tid =
        some (testCaseData.filter (caseSelected templateCaseIds fieldId tid))) ∧
    (∀ tid l,
      alookup (getCasesToUpdate templateIds templateCaseIds testCaseData fieldId) tid =
          some l →
      ∀ c ∈ l, ∀ idVal, alookup c "id" = some idVal → idVal ∉ templateCaseIds) := by
  have hmain : ∀ tid ∈ templateIds,
      alookup (getCasesToUpdate templateIds templateCaseIds testCaseData fieldId) tid =
        some (testCaseData.filter (caseSelected templateCaseIds fieldId tid)) := by
    intro tid htid
    rw [getCasesToUpdate, ctuLoop_char templateIds templateCaseIds fieldId testCaseData
      (ctuInit templateIds) tid htid hf hi, alookup_ctuInit]
    simp [htid]
  refine ⟨hmain, ?_⟩
  intro tid l hl c hc idv hidv
  by_cases htid : tid ∈ templateIds
  · rw [hmain tid htid] at hl
    have hlf := Option.some.inj hl
    rw [← hlf] at hc
    have hsel := List.of_mem_filter hc
    simp only [caseSelected, Bool.and_eq_true, decide_eq_true_eq] at hsel
    rcases hsel with ⟨-, hrest⟩
    simp only [hidv, decide_eq_true_eq] at hrest
    exact hrest
  · rw [getCasesToUpdate, ctuLoop_none templateIds templateCaseIds fieldId testCaseData
      (ctuInit templateIds) tid (by rw [alookup_ctuInit]; simp [htid])] at hl
    exact Option.noConfusion hl

/-- C4 (witness): one template id, the template case excluded by its id,
one matching candidate selected, one non-matching case ignored. -/
theorem c4_candidate_selection_witness :
    alookup (getCasesToUpdate [Value.str "T1"] [Value.intVal 10]
        [[("id", Value.intVal 10), ("tid", Value.str "T1")],
         [("id", Value.intVal 11), ("tid", Value.str "T1")],
         [("id", Value.intVal 12), ("tid", Value.str "T2")]] "tid") (Value.str "T1") =
      some [[("id", Value.intVal 11), ("tid", Value.str "T1")]] :=
  ((c4_candidate_selection [Value.str "T1"] [Value.intVal 10]
      [[("id", Value.intVal 10), ("tid", Value.str "T1")],
       [("id", Value.intVal 11), ("tid", Value.str "T1")],
       [("id", Value.intVal 12), ("tid", Value.str "T2")]] "tid"
      (by decide) (by decide)).1 (Value.str "T1") (by decide)).trans (by decide)

/-! ### C8 and C6 — the update loop -/

/-- Characterisation of the update loop when nothing raises: the accumulated
ids, persist calls and merged records are the accumulator followed by one
entry per pair according to `updatedIdOf`, `persistOf` and `mergedOf`, and
the loop never aborts. Shared by the dry-run/reporting and the failure-
isolation analyses. -/
theorem runPairs_char (marker : String) (fields : List String) (oracle : Dict → UpdateOutcome)
    (dryRun : Bool) :
    ∀ (pairs : List (Dict × Dict)) (acc : UpdateRunResult),
      (∀ p ∈ pairs, (mergeCaseFields marker p.1 fields p.2 false).isSome) →
      (∀ p ∈ pairs, (mergeCaseFields marker p.1 fields p.2 false).all
        (fun r => (alookup r.1 "id").isSome) = true) →
      (∀ c, oracle c ≠ UpdateOutcome.raise) →
      runPairs marker fields oracle dryRun pairs acc =
        { casesUpdated := acc.casesUpdated ++
            (if dryRun then [] else pairs.filterMap (updatedIdOf marker fields oracle)),
          persistCalls := acc.persistCalls ++
            (if dryRun then [] else pairs.filterMap (persistOf marker fields)),
          mergedCases := acc.mergedCases ++ pairs.filterMap (mergedOf marker fields),
          aborted := acc.aborted } := by
  intro pairs
  induction pairs with
  | nil =>
    intro acc _ _ _
    cases dryRun <;> simp [runPairs]
  | cons p rest ih =>
    intro acc hm hid hr
    obtain ⟨p1, p2⟩ := p
    obtain ⟨⟨c, ch⟩, hmc⟩ :=
      Option.isSome_iff_exists.mp (hm (p1, p2) (List.mem_cons_self _ _))
    have hmr : ∀ q ∈ rest, (mergeCaseFields marker q.1 fields q.2 false).isSome :=
      fun q hq => hm q (List.mem_cons_of_mem _ hq)
    have hidr : ∀ q ∈ rest, (mergeCaseFields marker q.1 fields q.2 false).all
        (fun r => (alookup r.1 "id").isSome) = true :=
      fun q hq => hid q (List.mem_cons_of_mem _ hq)
    have hidp := hid (p1, p2) (List.mem_cons_self _ _)
    rw [hmc] at hidp
    simp only [Option.all_some] at hidp
    obtain ⟨idv, hidv⟩ := Option.isSome_iff_exists.mp hidp
    simp only [runPairs, hmc]
    cases dryRun with
    | true =>
      rw [if_neg (by simp)]
      rw [ih _ hmr hidr hr]
      simp [mergedOf, hmc, List.filterMap_cons]
    | false =>
      cases ch with
      | false =>
        rw [if_neg (by simp)]
        rw [ih _ hmr hidr hr]
        simp [mergedOf, persistOf, updatedIdOf, hmc, List.filterMap_cons]
      | true =>
        rw [if_pos (by simp)]
        simp only [hidv]
        cases ho : oracle c with
        | raise => exact absurd ho (hr c)
        | result hasError =>
          dsimp only
          cases hasError with
          | true =>
            rw [if_pos rfl, ih _ hmr hidr hr]
            simp [mergedOf, persistOf, updatedIdOf, hmc, ho, List.filterMap_cons,
              List.append_assoc]
          | false =>
            rw [if_neg (by simp), ih _ hmr hidr hr]
            simp [mergedOf, persistOf, updatedIdOf, hmc, ho, hidv, List.filterMap_cons,
              List.append_assoc]

/-- C8: with a remote that returns results (no raising call), every merge
succeeding and every merged record carrying an id: a dry run makes no persist
call and reports no updated case while still computing every per-field merge;
a non-dry run's updated-case list contains exactly (and in order) the id of
every pair whose merge changed a field and whose persist result carried no
error indicator — membership in the report is equivalent to the existence of
such a changed, error-free-persisted pair. -/
theorem c8_update_reporting_and_dry_run (marker : String) (fields : List String)
    (oracle : Dict → UpdateOutcome) (templates : List (Value × Dict))
    (casesToUpdate : List (Value × List Dict))
    (hm : ∀ p ∈ buildPairs templates casesToUpdate,
      (mergeCaseFields marker p.1 fields p.2 false).isSome)
    (hid : ∀ p ∈ buildPairs templates casesToUpdate,
      (mergeCaseFields marker p.1 fields p.2 false).all
        (fun r => (alookup r.1 "id").isSome) = true)
    (hraise : ∀ c, oracle c ≠ UpdateOutcome.raise) :
    (updateTestCases marker fields oracle templates casesToUpdate true =
      { casesUpdated := [], persistCalls := [],
        mergedCases := (buildPairs templates casesToUpdate).filterMap (mergedOf marker fields),
        aborted := false })
    ∧ (updateTestCases marker fields oracle templates casesToUpdate false =
      { casesUpdated := (buildPairs templates casesToUpdate).filterMap
          (updatedIdOf marker fields oracle),
        persistCalls := (buildPairs templates casesToUpdate).filterMap (persistOf marker fields),
        mergedCases := (buildPairs templates casesToUpdate).filterMap (mergedOf marker fields),
        aborted := false })
    ∧ ∀ v, v ∈ (updateTestCases marker fields oracle templates casesToUpdate false).casesUpdated
        ↔ ∃ p ∈ buildPairs templates casesToUpdate,
            updatedIdOf marker fields oracle p = some v := by
  have h1 := runPairs_char marker fields oracle true (buildPairs templates casesToUpdate)
    initUpdateRun hm hid hraise
  have h2 := runPairs_char marker fields oracle false (buildPairs templates casesToUpdate)
    initUpdateRun hm hid hraise
  refine ⟨?_, ?_, ?_⟩
  · rw [updateTestCases, h1]
    simp [initUpdateRun]
  · rw [updateTestCases, h2]
    simp [initUpdateRun]
  · intro v
    rw [updateTestCases, h2]
    simp [initUpdateRun, List.mem_filterMap]

/-- C8 (witness): the spec's end-to-end scenario with one template and two
candidates (one diverging behind a marker, one already equal): the dry run
reports nothing and persists nothing while both merges are computed; the
diverging candidate's merged record refreshes the templated prefix. -/
theorem c8_update_reporting_witness :
    updateTestCases "!ENDTEMPLATE!" ["title"] (fun _ => UpdateOutcome.result false)
      [(Value.str "T1",
        [("id", Value.intVal 10), ("tid", Value.str "T1"), ("title", Value.str "Base")])]
      [(Value.str "T1",
        [[("id", Value.intVal 11), ("tid", Value.str "T1"),
          ("title", Value.str "Old !ENDTEMPLATE! x")],
         [("id", Value.intVal 12), ("tid", Value.str "T1"), ("title", Value.str "Base")]])]
      true =
      { casesUpdated := [], persistCalls := [],
        mergedCases :=
          [[("id", Value.intVal 11), ("tid", Value.str "T1"),
            ("title", Value.str "Base!ENDTEMPLATE! x")],
           [("id", Value.intVal 12), ("tid", Value.str "T1"), ("title", Value.str "Base")]],
        aborted := false } :=
  ((c8_update_reporting_and_dry_run "!ENDTEMPLATE!" ["title"]
      (fun _ => UpdateOutcome.result false)
      [(Value.str "T1",
        [("id", Value.intVal 10), ("tid", Value.str "T1"), ("title", Value.str "Base")])]
      [(Value.str "T1",
        [[("id", Value.intVal 11), ("tid", Value.str "T1"),
          ("title", Value.str "Old !ENDTEMPLATE! x")],
         [("id", Value.intVal 12), ("tid", Value.str "T1"), ("title", Value.str "Base")]])]
      (by decide) (by decide) (fun c h => UpdateOutcome.noConfusion h)).1).trans (by decide)

/-- C6 (counterexample): the claim says a failure while persisting one
candidate does not abort the run and later candidates are still merged and
persisted. A persist call that raises (the realistic remote failure: the API
client raises on a failed HTTP update) is caught by the `except` wrapped
around the WHOLE loop of `_update_test_cases`: with two changed candidates
and the remote raising on the first (id 11), the run stops — the second
candidate (id 12) is never merged, never persisted, and nothing is reported
updated. -/
theorem c6_per_case_isolation_counterexample :
    updateTestCases "!ENDTEMPLATE!" ["prio"]
        (fun c => if alookup c "id" = some (Value.intVal 11) then UpdateOutcome.raise
                  else UpdateOutcome.result false)
        [(Value.str "T1", [("id", Value.intVal 10), ("prio", Value.intVal 1)])]
        [(Value.str "T1", [[("id", Value.intVal 11), ("prio", Value.intVal 2)],
                           [("id", Value.intVal 12), ("prio", Value.intVal 3)]])]
        false =
      { casesUpdated := [],
        persistCalls := [[("id", Value.intVal 11), ("prio", Value.intVal 1)]],
        mergedCases := [[("id", Value.intVal 11), ("prio", Value.intVal 1)]],
        aborted := true } := by
  decide

/-- C6 (amended): per-case failure isolation holds only for persist failures
signalled by an error indicator in the returned result: when no remote call
raises (and merges succeed with ids present), the loop never aborts and every
candidate whose merge changed a field is persisted — even those coming after
a candidate whose persist result carried an error indicator (which is merely
not reported as updated). A raising persist call instead aborts the remaining
candidates (the exception is logged and the ids updated so far returned). -/
theorem c6_per_case_isolation_amended (marker : String) (fields : List String)
    (oracle : Dict → UpdateOutcome) (templates : List (Value × Dict))
    (casesToUpdate : List (Value × List Dict))
    (hm : ∀ p ∈ buildPairs templates casesToUpdate,
      (mergeCaseFields marker p.1 fields p.2 false).isSome)
    (hid : ∀ p ∈ buildPairs templates casesToUpdate,
      (mergeCaseFields marker p.1 fields p.2 false).all
        (fun r => (alookup r.1 "id").isSome) = true)
    (hraise : ∀ c, oracle c ≠ UpdateOutcome.raise) :
    (updateTestCases marker fields oracle templates casesToUpdate false).aborted = false ∧
    ∀ p ∈ buildPairs templates casesToUpdate, ∀ c,
      mergeCaseFields marker p.1 fields p.2 false = some (c, true) →
      c ∈ (updateTestCases marker fields oracle templates casesToUpdate false).persistCalls := by
  have h2 := runPairs_char marker fields oracle false (buildPairs templates casesToUpdate)
    initUpdateRun hm hid hraise
  constructor
  · rw [updateTestCases, h2]
    rfl
  · intro p hp c hmc
    rw [updateTestCases, h2]
    simp only [initUpdateRun, List.nil_append, if_neg (by simp : ¬ (false : Bool) = true)]
    exact List.mem_filterMap.mpr ⟨p, hp, by simp [persistOf, hmc]⟩

/-- C6 (witness): with the persist result for the first changed candidate
carrying an error indicator, the second changed candidate is still persisted
(and the run does not abort). -/
theorem c6_per_case_isolation_witness :
    ([("id", Value.intVal 12), ("prio", Value.intVal 1)] : Dict) ∈
      (updateTestCases "!ENDTEMPLATE!" ["prio"]
        (fun c => if alookup c "id" = some (Value.intVal 11) then UpdateOutcome.result true
                  else UpdateOutcome.result false)
        [(Value.str "T1", [("id", Value.intVal 10), ("prio", Value.intVal 1)])]
        [(Value.str "T1", [[("id", Value.intVal 11), ("prio", Value.intVal 2)],
                           [("id", Value.intVal 12), ("prio", Value.intVal 3)]])]
        false).persistCalls :=
  (c6_per_case_isolation_amended "!ENDTEMPLATE!" ["prio"]
      (fun c => if alookup c "id" = some (Value.intVal 11) then UpdateOutcome.result true
                else UpdateOutcome.result false)
      [(Value.str "T1", [("id", Value.intVal 10), ("prio", Value.intVal 1)])]
      [(Value.str "T1", [[("id", Value.intVal 11), ("prio", Value.intVal 2)],
                         [("id", Value.intVal 12), ("prio", Value.intVal 3)]])]
      (by decide) (by decide)
      (fun c => by
        by_cases h : alookup c "id" = some (Value.intVal 11) <;> simp [h])).2
    ([("id", Value.intVal 10), ("prio", Value.intVal 1)],
      [("id", Value.intVal 12), ("prio", Value.intVal 3)])
    (by decide)
    [("id", Value.intVal 12), ("prio", Value.intVal 1)]
    (by decide)

/-! ### C9 — idempotence of the section closure -/

/-- A successful descendant computation is closed: every direct child (from
the scanned portion) of the searched section is in the output, and the output
is closed under taking children in the full lookup table. -/
theorem secsDescAux_closed (lookups : List (Int × Option Int)) :
    ∀ (fuel : Nat) (p : Int) (l : List (Int × Option Int)) (out : List Int),
      secsDescAux fuel p lookups l = some out →
      ((∀ c pr, (c, pr) ∈ l → pr = some p → c ∈ out) ∧
       (∀ x ∈ out, ∀ c, (c, some x) ∈ lookups → c ∈ out)) := by
  intro fuel
  induction fuel with
  | zero =>
    intro p l out h
    exact Option.noConfusion h
  | succ n ih =>
    intro p l out h
    cases l with
    | nil =>
      have hout : ([] : List Int) = out := Option.some.inj h
      constructor
      · intro c pr hc _
        exact absurd hc (List.not_mem_nil _)
      · intro x hx
        rw [← hout] at hx
        exact absurd hx (List.not_mem_nil _)
    | cons e rest =>
      obtain ⟨secId, prntId⟩ := e
      by_cases hp : prntId = some p
      · simp only [secsDescAux] at h
        rw [if_pos hp] at h
        cases hsub : secsDescAux n secId lookups lookups with
        | none => rw [hsub] at h; exact Option.noConfusion h
        | some sub =>
          rw [hsub] at h
          cases htail : secsDescAux n p lookups rest with
          | none => rw [htail] at h; exact Option.noConfusion h
          | some tail =>
            rw [htail] at h
            have hout : secId :: (sub ++ tail) = out := Option.some.inj h
            obtain ⟨hsubA, hsubB⟩ := ih secId lookups sub hsub
            obtain ⟨htailA, htailB⟩ := ih p rest tail htail
            subst hout
            constructor
            · intro c pr hc hpr
              rcases List.mem_cons.mp hc with hhead | hrest2
              · injection hhead with hc1 _
                rw [hc1]
                exact List.mem_cons_self _ _
              · exact List.mem_cons_of_mem _ (List.mem_append.mpr
                  (Or.inr (htailA c pr hrest2 hpr)))
            · intro x hx c hc
              rcases List.mem_cons.mp hx with hx1 | hx2
              · have : c ∈ sub := hsubA c (some x) (hx1 ▸ hc) (by rw [hx1])
                exact List.mem_cons_of_mem _ (List.mem_append.mpr (Or.inl this))
              · rcases List.mem_append.mp hx2 with hxs | hxt
                · exact List.mem_cons_of_mem _ (List.mem_append.mpr
                    (Or.inl (hsubB x hxs c hc)))
                · exact List.mem_cons_of_mem _ (List.mem_append.mpr
                    (Or.inr (htailB x hxt c hc)))
      · simp only [secsDescAux] at h
        rw [if_neg hp] at h
        obtain ⟨hA, hB⟩ := ih p rest out h
        constructor
        · intro c pr hc hpr
          rcases List.mem_cons.mp hc with hhead | hrest2
          · exfalso
            apply hp
            injection hhead with _ hc2
            rw [← hc2]
            exact hpr
          · exact hA c pr hrest2 hpr
        · exact hB

/-- A successful descendant computation stays inside any child-closed set
that contains the children of the searched section. -/
theorem secsDescAux_subset_closed (lookups : List (Int × Option Int)) (big : List Int)
    (hcl : ∀ x ∈ big, ∀ c, (c, some x) ∈ lookups → c ∈ big) :
    ∀ (fuel : Nat) (p : Int) (l : List (Int × Option Int)) (out : List Int),
      (∀ e ∈ l, e ∈ lookups) →
      (∀ c, (c, some p) ∈ lookups → c ∈ big) →
      secsDescAux fuel p lookups l = some out →
      ∀ x ∈ out, x ∈ big := by
  intro fuel
  induction fuel with
  | zero =>
    intro p l out _ _ h
    exact Option.noConfusion h
  | succ n ih =>
    intro p l out hl hp h
    cases l with
    | nil =>
      have hout : ([] : List Int) = out := Option.some.inj h
      intro x hx
      rw [← hout] at hx
      exact absurd hx (List.not_mem_nil _)
    | cons e rest =>
      obtain ⟨secId, prntId⟩ := e
      by_cases hpr : prntId = some p
      · simp only [secsDescAux] at h
        rw [if_pos hpr] at h
        cases hsub : secsDescAux n secId lookups lookups with
        | none => rw [hsub] at h; exact Option.noConfusion h
        | some sub =>
          rw [hsub] at h
          cases htail : secsDescAux n p lookups rest with
          | none => rw [htail] at h; exact Option.noConfusion h
          | some tail =>
            rw [htail] at h
            have hout : secId :: (sub ++ tail) = out := Option.some.inj h
            have hsecbig : secId ∈ big := by
              apply hp
              have hmem := hl (secId, prntId) (List.mem_cons_self _ _)
              rw [hpr] at hmem
              exact hmem
            have hsubbig : ∀ x ∈ sub, x ∈ big :=
              ih secId lookups sub (fun e he => he)
                (fun c hc => hcl secId hsecbig c hc) hsub
            have htailbig : ∀ x ∈ tail, x ∈ big :=
              ih p rest tail (fun e he => hl e (List.mem_cons_of_mem _ he)) hp htail
            intro x hx
            rw [← hout] at hx
            rcases List.mem_cons.mp hx with h1 | h2
            · rw [h1]; exact hsecbig
            · rcases List.mem_append.mp h2 with h3 | h4
              · exact hsubbig x h3
              · exact htailbig x h4
      · simp only [secsDescAux] at h
        rw [if_neg hpr] at h
        exact ih p rest out (fun e he => hl e (List.mem_cons_of_mem _ he)) hp h

/-- Membership characterisation of `get_child_sections`: its result consists
of each requested root together with that root's (successfully computed)
descendant list. -/
theorem getChildSections_mem (fuel : Nat) (sections : List PySection) :
    ∀ (roots : List Int) (L : List Int),
      getChildSections fuel roots sections = some L →
      ((∀ r ∈ roots, ∃ outr, secsGetChildSections fuel r sections = some outr) ∧
       (∀ x, x ∈ L ↔ ∃ r ∈ roots, x = r ∨
          ∃ outr, secsGetChildSections fuel r sections = some outr ∧ x ∈ outr)) := by
  intro roots
  induction roots with
  | nil =>
    intro L h
    have hout : ([] : List Int) = L := Option.some.inj h
    constructor
    · intro r hr
      exact absurd hr (List.not_mem_nil _)
    · intro x
      constructor
      · intro hx
        rw [← hout] at hx
        exact absurd hx (List.not_mem_nil _)
      · rintro ⟨r, hr, -⟩
        exact absurd hr (List.not_mem_nil _)
  | cons r rest ih =>
    intro L h
    simp only [getChildSections] at h
    cases hcs : secsGetChildSections fuel r sections with
    | none => rw [hcs] at h; exact Option.noConfusion h
    | some childSecs =>
      rw [hcs] at h
      cases htail : getChildSections fuel rest sections with
      | none => rw [htail] at h; exact Option.noConfusion h
      | some tail =>
        rw [htail] at h
        have hout : r :: (childSecs ++ tail) = L := Option.some.inj h
        obtain ⟨ihEx, ihMem⟩ := ih tail htail
        constructor
        · intro s hs
          rcases List.mem_cons.mp hs with h1 | h2
          · exact ⟨childSecs, by rw [h1]; exact hcs⟩
          · exact ihEx s h2
        · intro x
          rw [← hout]
          simp only [List.mem_cons, List.mem_append]
          constructor
          · rintro (h1 | h2 | h3)
            · exact ⟨r, Or.inl rfl, Or.inl h1⟩
            · exact ⟨r, Or.inl rfl, Or.inr ⟨childSecs, hcs, h2⟩⟩
            · obtain ⟨s, hs, hor⟩ := (ihMem x).mp h3
              exact ⟨s, Or.inr hs, hor⟩
          · rintro ⟨s, hs, hor⟩
            rcases hs with hsr | hsrest
            · subst hsr
              rcases hor with h1 | ⟨outr, houtr, hxout⟩
              · exact Or.inl h1
              · rw [hcs] at houtr
                have hco : childSecs = outr := Option.some.inj houtr
                exact Or.inr (Or.inl (hco ▸ hxout))
            · exact Or.inr (Or.inr ((ihMem x).mpr ⟨s, hsrest, hor⟩))

/-- C9: for every section input and requested root-id list, when a first
descendant resolution completes with result L (which on cycle-free data it
does, the fuel bounding only the recursion depth) and re-resolving L
completes with result L2, the two results are equal as sets of section ids —
the closure is idempotent. -/
theorem c9_resolve_descendants_idempotent (sections : List PySection) (roots L L2 : List Int)
    (fuel1 fuel2 : Nat)
    (h1 : getChildSections fuel1 roots sections = some L)
    (h2 : getChildSections fuel2 L sections = some L2) :
    ∀ x, x ∈ L2 ↔ x ∈ L := by
  obtain ⟨hEx1, hMem1⟩ := getChildSections_mem fuel1 sections roots L h1
  obtain ⟨hEx2, hMem2⟩ := getChildSections_mem fuel2 sections L L2 h2
  have hunfold : ∀ (f : Nat) (r : Int), secsGetChildSections f r sections =
      secsDescAux f r (buildSectionLookup sections) (buildSectionLookup sections) :=
    fun f r => rfl
  have hclosed : ∀ y ∈ L, ∀ c, (c, some y) ∈ buildSectionLookup sections → c ∈ L := by
    intro y hy c hc
    obtain ⟨s, hs, hor⟩ := (hMem1 y).mp hy
    rcases hor with rfl | ⟨outr, houtr, hyout⟩
    · obtain ⟨outr, houtr⟩ := hEx1 y hs
      obtain ⟨hA, -⟩ := secsDescAux_closed (buildSectionLookup sections) fuel1 y
        (buildSectionLookup sections) outr (by rw [← hunfold]; exact houtr)
      exact (hMem1 c).mpr ⟨y, hs, Or.inr ⟨outr, houtr, hA c (some y) hc rfl⟩⟩
    · obtain ⟨-, hB⟩ := secsDescAux_closed (buildSectionLookup sections) fuel1 s
        (buildSectionLookup sections) outr (by rw [← hunfold]; exact houtr)
      exact (hMem1 c).mpr ⟨s, hs, Or.inr ⟨outr, houtr, hB y hyout c hc⟩⟩
  intro x
  constructor
  · intro hx
    obtain ⟨s, hsL, hor⟩ := (hMem2 x).mp hx
    rcases hor with rfl | ⟨outs, houts, hxout⟩
    · exact hsL
    · exact secsDescAux_subset_closed (buildSectionLookup sections) L hclosed fuel2 s
        (buildSectionLookup sections) outs (fun e he => he)
        (fun c hc => hclosed s hsL c hc) (by rw [← hunfold]; exact houts) x hxout
  · intro hx
    exact (hMem2 x).mpr ⟨x, hx, Or.inl rfl⟩

/-- C9 (witness): a two-leaf forest under root 1; both resolutions complete
and the re-resolution changes nothing as a set. -/
theorem c9_resolve_descendants_witness :
    ((2 : Int) ∈ ([1, 2, 3, 2, 3] : List Int)) ↔ ((2 : Int) ∈ ([1, 2, 3] : List Int)) :=
  c9_resolve_descendants_idempotent [⟨2, some 1⟩, ⟨3, some 1⟩] [1] [1, 2, 3] [1, 2, 3, 2, 3]
    5 5 (by decide) (by decide) 2

end TrUtils
